import Mathlib

/-!
Verification of the esv-forms-to-map Winlink B2F endpoint.

Shallow embedding of the authoritative sources under `src/python/`:
* `classes/B2Message.py` — the B2 binary frame parser (`B2Message.parse`,
  `B2Message._calculate_checksum`);
* `classes/WinlinkConnection.py` — the per-connection session state machine
  (`_handle_client_request`, `_handle_password_validation`,
  `_handle_end_of_proposal`, `_handle_no_messages`, `_wait_for_data`);
* `classes/WinlinkMailMessage.py` — the mailbox artifact store
  (`_save_headers_to_file`, `_save_body_to_file`, `_save_attachments_to_files`).

Bytes are modelled as `Nat` (byte strings as `List Nat`, every element < 256 in
well-formedness hypotheses), Python `bytes` slices as `drop`/`take` (Python
slices silently truncate at the end of the buffer, as does `take`), and Python
exceptions as an explicit error type carried by `Except`.  One constructor of
`ParseError` corresponds to one distinct `raise` site (or implicit exception
source) of `B2Message.parse`.
-/

/-! ## Byte constants (B2Message.py lines 20-23) -/

def SOH : Nat := 0x01
def NUL : Nat := 0x00
def STX : Nat := 0x02
def EOT : Nat := 0x04

/-! ## Error model

Each constructor names one exception source in `B2Message.parse`:
* `indexError` — `self.raw_data[i]` with `i` out of range (Python `IndexError`);
* `nulNotFound` — `self.raw_data.index(NUL, i)` finding no NUL
  (Python `ValueError` raised by `bytes.index`);
* `asciiDecodeError` — `.decode("ascii")` on a byte ≥ 0x80
  (Python `UnicodeDecodeError`);
* `intParseError` — `int(offset_str)` on a non-numeric string (`ValueError`);
* `expectedSOH` — `raise ValueError("Expected SOH at start of message")`;
* `expectedNulAfterSubject` — `raise ValueError("Expected NUL after subject field")`;
* `expectedLeadBytes` — `raise ValueError("Expected STX 0x06 before lead-bytes")`;
* `malformedBlock` — `raise ValueError("Malformed message block at index ...")`;
* `checksumMismatch` — `raise ValueError("Checksum mismatch: ...")`;
* `sizeMismatchCompressed` — `raise ValueError("Compressed message size ... does not match proposal ...")`;
* `sizeMismatchDecompressed` — `raise ValueError("Decompressed message size ... does not match proposal ...")`.
-/

inductive ParseError where
  | indexError
  | nulNotFound
  | asciiDecodeError
  | intParseError
  | expectedSOH
  | expectedNulAfterSubject
  | expectedLeadBytes
  | malformedBlock
  | checksumMismatch
  | sizeMismatchCompressed
  | sizeMismatchDecompressed
deriving DecidableEq

/-! ## Checksum (B2Message.py lines 70-73) -/

/-- `B2Message._calculate_checksum` (B2Message.py lines 70-73):
`checksum = sum(self.compressed_data) & 0xFF; return ((checksum * -1) & 0xFF)`.
Python's `x & 0xFF` on an arbitrary (possibly negative) integer is arithmetic
reduction mod 256 in infinite two's-complement semantics, which is `Int.emod`
by 256 (both always yield a result in `[0, 256)`); the byte sum is non-negative,
so the first `& 0xFF` also agrees with `% 256`. -/
def calculate_checksum (compressed_data : List Nat) : Int :=
  let checksum : Int := (compressed_data.sum : Int) % 256
  (checksum * -1) % 256

/-! ## Block scan loop (B2Message.py lines 117-141)

`parse`'s `while True:` loop over `<STX><LEN><DATA>` blocks terminated by
`<EOT><CHECKSUM>`.  `i` is `byte_index`, `acc` is `self.compressed_data`
accumulated so far.  The STX branch appends the slice
`raw_data[i+2 : i+2+len]` (which silently truncates at the end of the buffer,
like `take`) and jumps to `i+2+len`.  The EOT branch reads the transmitted
checksum byte and compares it with `_calculate_checksum`. -/

def scanBlocks (raw : List Nat) (i : Nat) (acc : List Nat) :
    Except ParseError (List Nat × Nat × Nat) :=
  if h : i < raw.length then
    if raw[i] = STX then
      match raw[i+1]? with
      | none => .error .indexError
      | some len => scanBlocks raw (i + 2 + len) (acc ++ (raw.drop (i+2)).take len)
    else if raw[i] = EOT then
      match raw[i+1]? with
      | none => .error .indexError
      | some ck =>
        if (ck : Int) = calculate_checksum acc then .ok (acc, ck, i + 2)
        else .error .checksumMismatch
    else .error .malformedBlock
  else .error .indexError
termination_by raw.length - i
decreasing_by omega

/-! ## Header scan (B2Message.py lines 76-115) -/

/-- `bytes.index(target, start)`: index of the first occurrence of `target` at
position ≥ `start`, scanning the suffix `raw.drop start`; `none` models the
`ValueError` Python raises when the byte is absent. -/
def findFrom : List Nat → Nat → Nat → Option Nat
  | [], _, _ => none
  | b :: rest, target, i => if b = target then some i else findFrom rest target (i+1)

def indexOfFrom (raw : List Nat) (target : Nat) (start : Nat) : Option Nat :=
  findFrom (raw.drop start) target start

/-- ASCII digit test used to model `int()` on the decimal strings the wire
carries (the offset field of a B2 header is a run of ASCII decimal digits). -/
def isDigitByte (b : Nat) : Bool := 48 ≤ b && b ≤ 57

/-- Decimal value of a digit-byte string, as computed by `int(offset_str)`. -/
def digitsToNat (l : List Nat) : Nat := l.foldl (fun acc b => acc * 10 + (b - 48)) 0

/-- Result of the header portion of `B2Message.parse` (lines 76-115):
the subject bytes, the parsed offset, the initial content of
`self.compressed_data` (the 6 lead bytes when `offset != 0`, else empty) and
the value of `byte_index` at entry to the block-scan loop. -/
structure HeaderParse where
  subject : List Nat
  offset : Nat
  leadBytes : List Nat
  startIdx : Nat
deriving DecidableEq

/-- Header portion of `B2Message.parse` (B2Message.py lines 76-115), step by
step: SOH check, (unused) length byte, NUL-delimited subject with ASCII decode,
NUL-delimited ASCII decimal offset, and — when the offset is non-zero — the
`STX 0x06` lead-byte header whose following 6-byte slice seeds
`compressed_data[0:6]` (the slice truncates at the buffer end, like Python's).
The `raw[endSubject]?` access cannot fail (`endSubject` is an index returned by
the NUL search); the branch is kept to mirror line 97. -/
def parseHeader (raw : List Nat) : Except ParseError HeaderParse :=
  match raw[0]? with
  | none => .error .indexError
  | some b0 =>
    if b0 ≠ SOH then .error .expectedSOH
    else match raw[1]? with
    | none => .error .indexError
    | some _header_length =>
      match indexOfFrom raw NUL 2 with
      | none => .error .nulNotFound
      | some endSubject =>
        let subjBytes := (raw.drop 2).take (endSubject - 2)
        if ¬ subjBytes.all (· < 128) then .error .asciiDecodeError
        else match raw[endSubject]? with
        | none => .error .indexError
        | some bn =>
          if bn ≠ NUL then .error .expectedNulAfterSubject
          else match indexOfFrom raw NUL (endSubject + 1) with
          | none => .error .nulNotFound
          | some endOffset =>
            let offBytes := (raw.drop (endSubject + 1)).take (endOffset - (endSubject + 1))
            if ¬ offBytes.all (· < 128) then .error .asciiDecodeError
            else if offBytes = [] then .error .intParseError
            else if ¬ offBytes.all isDigitByte then .error .intParseError
            else
              let offset := digitsToNat offBytes
              let bi := endOffset + 1
              if offset ≠ 0 then
                match raw[bi]? with
                | none => .error .indexError
                | some s =>
                  if s ≠ STX then .error .expectedLeadBytes
                  else match raw[bi+1]? with
                  | none => .error .indexError
                  | some six =>
                    if six ≠ 0x06 then .error .expectedLeadBytes
                    else .ok ⟨subjBytes, offset, (raw.drop (bi+2)).take 6, bi + 8⟩
              else .ok ⟨subjBytes, offset, [], bi⟩

/-! ## Full parse (B2Message.py lines 76-172) -/

/-- Little-endian integer of a byte list, as `int.from_bytes(b, 'little')`
(defined for any length; `parse` applies it to the possibly-short slice
`compressed_data[2:6]`). -/
def leBytesToNat : List Nat → Nat
  | [] => 0
  | b :: rest => b + 256 * leBytesToNat rest

/-- Successful outcome of `B2Message.parse`: the fields the method fills in
plus its return value `nextIndex` (the index of the first unconsumed byte of
`raw_data`). -/
structure B2ParseResult where
  subject : List Nat
  offset : Nat
  compressed_data : List Nat
  transmitted_checksum : Nat
  nextIndex : Nat
deriving DecidableEq

/-- `B2Message.parse` (B2Message.py lines 76-172).  `compressed_size` and
`decompressed_size` are the proposal sizes stored on the instance by
`__init__`.  After the block scan the method validates the reassembled length
against `compressed_size` (lines 144-148) and the little-endian u32 at
`compressed_data[2:6]` against `decompressed_size` (lines 150-154).  The
decompression step (lines 156-170) shells out to the external `lzhuf` binary
inside `try/except` whose failures are only logged, so it affects neither the
error behaviour nor the returned index and is out of scope here (the spec
treats the codec as an external pure function). -/
def parse (raw : List Nat) (compressed_size decompressed_size : Nat) :
    Except ParseError B2ParseResult :=
  match parseHeader raw with
  | .error e => .error e
  | .ok hdr =>
    match scanBlocks raw hdr.startIdx hdr.leadBytes with
    | .error e => .error e
    | .ok (compressed, ck, nextIdx) =>
      if compressed.length ≠ compressed_size then .error .sizeMismatchCompressed
      else if leBytesToNat ((compressed.drop 2).take 4) ≠ decompressed_size then
        .error .sizeMismatchDecompressed
      else .ok ⟨hdr.subject, hdr.offset, compressed, ck, nextIdx⟩

/-! ## Socket data read (WinlinkConnection.py lines 307-332)

`_wait_for_data(expected_size)` loops `recv(4096)` while the accumulated
length is below `expected_size`.  The socket is modelled as a list of events:
`chunk d` is one `recv` call returning the bytes `d` (an empty `d` is the
peer closing the connection, the `if not chunk: break` branch), `timeout` is
a `socket.timeout` exception (its handler returns the partial buffer).  An
exhausted event list models a peer that never sends again (the next `recv`
would time out). -/

inductive RecvEvent where
  | chunk (data : List Nat)
  | timeout
deriving DecidableEq

/-- One state of the accumulation loop of `_wait_for_data`
(WinlinkConnection.py lines 312-323): while `len(received_data) <
expected_size`, call `recv(4096)`; an empty chunk breaks the loop, a
`socket.timeout` returns the partial buffer (lines 331-332).  The three
non-recursive event cases return the accumulated buffer whether or not the
`while` condition holds, so the condition is tested inside the recursive case
only; this is the same function as testing it first. -/
def wait_for_data_go (expected : Nat) : List RecvEvent → List Nat → List Nat
  | [], acc => acc
  | RecvEvent.timeout :: _, acc => acc
  | RecvEvent.chunk [] :: _, acc => acc
  | RecvEvent.chunk (c :: cs) :: rest, acc =>
    if acc.length < expected then wait_for_data_go expected rest (acc ++ c :: cs)
    else acc

/-- `WinlinkConnection._wait_for_data` (WinlinkConnection.py lines 307-332). -/
def wait_for_data (expected_size : Nat) (events : List RecvEvent) : List Nat :=
  wait_for_data_go expected_size events []

/-! ## Session engine (WinlinkConnection.py)

Lines are `List Char` (a CR-terminated wire line with the CR stripped for
client input; server output lines keep their trailing CR exactly as passed to
`send_data`).  A handler returns the list of lines it sends and the updated
session.  The model assumes client lines contain no LF and no TAB (B2F lines
are CR-terminated printable ASCII), under which `str.split()` agrees with
splitting on runs of spaces and `re.match(r"^\[.*\]$", s)` agrees with a
first-`[`/last-`]` test. -/

/-- State-name constants of the state machine (WinlinkConnection.py lines
19-25). -/
inductive ConnState where
  | START
  | CONNECTED
  | CALLSIGN_ENTRY
  | PASSWORD_VALIDATION
  | LOGIN_SUCCESS
  | CLIENT_REQUEST
  | CLOSE_CONNECTION
deriving DecidableEq

/-- The fields of `WinlinkMailMessage` that `WinlinkConnection` reads: the
proposal data parsed from an `FC` line (WinlinkMailMessage.py lines 22-29).
The constructor's filesystem side effects (mailbox directory creation and the
timestamped `filename`) are modelled with the store, below. -/
structure WinlinkMailMessageData where
  message_type : List Char
  message_id : List Char
  uncompressed_size : Nat
  compressed_size : Nat
deriving DecidableEq

/-- The mutable session state of `WinlinkConnection` that the dispatch
handlers touch: `next_state` and the FIFO `message_queue` (front = next
`queue.get()`). -/
structure Session where
  next_state : ConnState
  message_queue : List WinlinkMailMessageData
deriving DecidableEq

/-- `str.startswith(pre)` on `List Char`. -/
def lineStarts (pre l : List Char) : Prop := l.take pre.length = pre

instance instDecidableLineStarts (pre l : List Char) : Decidable (lineStarts pre l) := by
  unfold lineStarts; infer_instance

/-- `re.match(r"^\[.*\]$", request)` for an LF-free line: first character `[`,
last character `]`, and length at least 2 (`.*` may be empty). -/
def isBracketed (l : List Char) : Prop :=
  l.head? = some '[' ∧ l.getLast? = some ']' ∧ 2 ≤ l.length

instance instDecidableIsBracketed (l : List Char) : Decidable (isBracketed l) := by
  unfold isBracketed; infer_instance

/-- `str.split()` on a TAB/LF-free line: split on runs of spaces, dropping
empty fields. -/
def pySplit (l : List Char) : List (List Char) :=
  (l.splitOn ' ').filter (· ≠ [])

/-- Python exception escaping a handler into `handle_connection`'s
`try/except` (only `int()` in `_handle_message_proposal` can raise out of the
dispatch; `_handle_end_of_proposal` catches its own exceptions). -/
inductive PyExn where
  | valueError
deriving DecidableEq

/-- `int(s)` on a wire field, modelled for decimal digit strings: a non-empty
all-digit string parses to its value, anything else raises `ValueError`. -/
def pyIntChars (l : List Char) : Except PyExn Nat :=
  if l = [] then .error .valueError
  else if ¬ l.all (·.isDigit) then .error .valueError
  else .ok (l.foldl (fun acc c => acc * 10 + (c.toNat - 48)) 0)

/-- `WinlinkConnection._handle_password_validation` (WinlinkConnection.py
lines 154-164).  `wait_for_input("Password :\r")` sends the prompt and reads a
line (`none` = timeout; the empty line is falsy like `None`).  Returns (sent
lines, next_state, stored `client_password`).  Note that no user directory is
consulted anywhere: the handler takes no credential store and never emits
`;NAK`. -/
def handle_password_validation (password : Option (List Char)) :
    List (List Char) × ConnState × Option (List Char) :=
  match password with
  | some pw =>
    if pw ≠ [] then (["Password :\r".toList], ConnState.LOGIN_SUCCESS, some pw)
    else (["Password :\r".toList], ConnState.START, none)
  | none => (["Password :\r".toList], ConnState.START, none)

/-- `WinlinkConnection._handle_no_messages` (WinlinkConnection.py lines
299-305): send `FQ\r`; neither `next_state` nor the queue is touched. -/
def handle_no_messages (s : Session) : List (List Char) × Session :=
  (["FQ\r".toList], s)

/-- `WinlinkConnection._handle_end_of_proposal` (WinlinkConnection.py lines
271-297).  With a non-empty queue the loop body pops the first queued message,
sends `FS Y\r`, reads up to `uncompressed_size` bytes with `_wait_for_data`,
and then executes `message.record_messsage_data(data)` — but
`WinlinkMailMessage` (src/python/classes/WinlinkMailMessage.py) defines no
method `record_messsage_data` (its data-recording method is named `capture`),
so this call raises `AttributeError`.  The surrounding `try/except Exception`
(lines 295-297) logs the error and invokes `_close_connection`, whose body
`self.connection.close` (line 337) lacks the call parentheses and is a no-op
attribute access; `next_state` is never assigned.  Hence: nothing is sent
beyond the single `FS Y\r`, no data is recorded or persisted, no `FF\r` is
sent, and the session keeps its previous `next_state` with the first proposal
consumed from the queue.  With an empty queue the loop body never runs. -/
def handle_end_of_proposal (s : Session) (events : List RecvEvent) :
    List (List Char) × Session :=
  match s.message_queue with
  | [] => ([], s)
  | m :: rest =>
    let _data := wait_for_data m.uncompressed_size events
    (["FS Y\r".toList], { s with message_queue := rest })

/-- `WinlinkConnection._handle_message_proposal` (WinlinkConnection.py lines
248-269): split the `FC` line on whitespace; with at least 5 fields construct
a `WinlinkMailMessage` from fields 1-4 (`int()` on the two sizes may raise
`ValueError`, which propagates out of the dispatch) and append it to the
queue; otherwise log and leave the session unchanged. -/
def handle_message_proposal (request : List Char) (s : Session) :
    Except PyExn Session :=
  let parts := pySplit request
  if parts.length ≥ 5 then
    match pyIntChars (parts.getD 3 []), pyIntChars (parts.getD 4 []) with
    | .ok u, .ok c =>
      .ok { s with message_queue :=
              s.message_queue ++ [⟨parts.getD 1 [], parts.getD 2 [], u, c⟩] }
    | .error e, _ => .error e
    | _, .error e => .error e
  else .ok s

/-- `WinlinkConnection._handle_sid` (WinlinkConnection.py lines 227-245):
strip the brackets, split on `-`; fewer than 2 fields closes the connection.
The extracted `author`/`version`/`feature_list` instance fields are not read
by any other handler and are not carried in `Session`. -/
def handle_sid (request : List Char) (s : Session) : Session :=
  let parts := (request.drop 1).dropLast.splitOn '-'
  if parts.length ≥ 2 then s else { s with next_state := ConnState.CLOSE_CONNECTION }

/-- `WinlinkConnection._handle_client_request` (WinlinkConnection.py lines
178-204): read one line (`none` models the `wait_for_input` timeout) and
dispatch on its prefix in source order; a falsy line (timeout or empty) and an
unrecognized line set `next_state = CLOSE_CONNECTION`. -/
def handle_client_request (request : Option (List Char)) (events : List RecvEvent)
    (s : Session) : Except PyExn (List (List Char) × Session) :=
  match request with
  | none => .ok ([], { s with next_state := ConnState.CLOSE_CONNECTION })
  | some r =>
    if r = [] then .ok ([], { s with next_state := ConnState.CLOSE_CONNECTION })
    else if lineStarts "FC".toList r then
      match handle_message_proposal r s with
      | .ok s' => .ok ([], s')
      | .error e => .error e
    else if lineStarts ";FW:".toList r then .ok ([], s)
    else if lineStarts ";PQ:".toList r then .ok ([], s)
    else if lineStarts ";PM:".toList r then .ok ([], s)
    else if isBracketed r then .ok ([], handle_sid r s)
    else if lineStarts "; ".toList r then .ok ([], s)
    else if lineStarts "F>".toList r then .ok (handle_end_of_proposal s events)
    else if lineStarts "FF".toList r then .ok (handle_no_messages s)
    else .ok ([], { s with next_state := ConnState.CLOSE_CONNECTION })

/-! ## Mailbox store (WinlinkMailMessage.py)

The filesystem is an association list from path to file content; `open(path,
'w')`/`open(path, 'wb')` followed by `write` is create-or-truncate: it
replaces the content of an existing entry and appends a new entry otherwise. -/

abbrev FileSystem := List (String × String)

/-- `open(path, 'w')` + `write(content)`: create-or-truncate semantics. -/
def fsWrite (fs : FileSystem) (path content : String) : FileSystem :=
  match fs with
  | [] => [(path, content)]
  | (p, c) :: rest =>
    if p = path then (p, content) :: rest else (p, c) :: fsWrite rest path content

def fsRead (fs : FileSystem) (path : String) : Option String :=
  match fs with
  | [] => none
  | (p, c) :: rest => if p = path then some c else fsRead rest path

/-- The `filename` prefix computed in `WinlinkMailMessage.__init__`
(WinlinkMailMessage.py lines 35-36): `mailbox/<YYYYMMDDHHMMSS>-<message_id>`.
The timestamp string comes from the wall clock
(`datetime.datetime.now().strftime`), an external input. -/
def mailMessageFilename (timestamp : String) (message_id : String) : String :=
  "mailbox/" ++ timestamp ++ "-" ++ message_id

/-- `WinlinkMailMessage._save_headers_to_file` (WinlinkMailMessage.py lines
83-94): write the header text to `<filename>-headers.txt` with `open(..,
'w')`. -/
def save_headers_to_file (fs : FileSystem) (filename headers : String) : FileSystem :=
  fsWrite fs (filename ++ "-headers.txt") headers

/-- `WinlinkMailMessage._save_body_to_file` (WinlinkMailMessage.py lines
96-107): write the body text to `<filename>-body.txt` with `open(.., 'w')`. -/
def save_body_to_file (fs : FileSystem) (filename body : String) : FileSystem :=
  fsWrite fs (filename ++ "-body.txt") body

/-- `WinlinkMailMessage._save_attachments_to_files` (WinlinkMailMessage.py
lines 109-118): for each attachment write its data to
`<filename>-<attachment.filename>` with `open(.., 'wb')`. -/
def save_attachments_to_files (fs : FileSystem) (filename : String)
    (attachments : List (String × String)) : FileSystem :=
  attachments.foldl (fun acc a => fsWrite acc (filename ++ "-" ++ a.1) a.2) fs


/-! ## Frame composition

`compose` builds the on-wire byte string of one B2 frame from its parts,
following the wire structure that `B2Message.parse` consumes (and the format
comment at the head of src/src/classes/B2Message.py): SOH, length byte,
subject, NUL, ASCII decimal offset, NUL, the `STX 0x06 <6 lead bytes>` section
exactly when the offset is non-zero, the `STX <len> <data>` blocks, EOT and
the checksum byte.  It is used to quantify over well-formed frames. -/

def blockBytes (blocks : List (List Nat)) : List Nat :=
  (blocks.map (fun b => STX :: b.length :: b)).flatten

structure Frame where
  lengthByte : Nat
  subject : List Nat
  offsetDigits : List Nat
  lead : List Nat
  blocks : List (List Nat)

/-- The numeric offset encoded by the frame's ASCII offset digits. -/
def frameOffset (f : Frame) : Nat := digitsToNat f.offsetDigits

/-- The `STX 0x06 <lead bytes>` section, present exactly when the offset is
non-zero. -/
def leadSection (f : Frame) : List Nat :=
  if frameOffset f = 0 then [] else STX :: 0x06 :: f.lead

/-- The compressed image the parser reassembles from this frame: the lead
bytes (when the offset is non-zero) followed by the concatenated block data. -/
def frameCompressed (f : Frame) : List Nat :=
  (if frameOffset f = 0 then [] else f.lead) ++ f.blocks.flatten

/-- The checksum byte the frame carries (`_calculate_checksum` always lies in
`[0, 256)`). -/
def checksumByte (f : Frame) : Nat := (calculate_checksum (frameCompressed f)).toNat

def compose (f : Frame) : List Nat :=
  SOH :: f.lengthByte ::
    (f.subject ++ NUL ::
      (f.offsetDigits ++ NUL ::
        (leadSection f ++ (blockBytes f.blocks ++ [EOT, checksumByte f]))))

/-- Well-formedness of a frame as a byte string the parser can consume: the
subject is NUL-free ASCII, the offset field is a non-empty digit string, the
lead section carries exactly 6 bytes when present, every block body fits its
single length byte, and every byte is a byte. -/
def WellFormedFrame (f : Frame) : Prop :=
  (∀ b ∈ f.subject, 0 < b ∧ b < 128) ∧
  (∀ b ∈ f.offsetDigits, isDigitByte b) ∧
  f.offsetDigits ≠ [] ∧
  (frameOffset f ≠ 0 → f.lead.length = 6) ∧
  (∀ b ∈ f.lead, b < 256) ∧
  (∀ blk ∈ f.blocks, blk.length ≤ 255 ∧ ∀ b ∈ blk, b < 256) ∧
  f.lengthByte < 256

instance instDecidableWellFormedFrame (f : Frame) : Decidable (WellFormedFrame f) := by
  unfold WellFormedFrame; infer_instance

deriving instance DecidableEq for Except

/-- A frame with empty subject, offset 0, and a single block of 251 zero
bytes: its block-length byte is 251, above the protocol's documented maximum
of 250. -/
def frame251 : Frame := ⟨3, [], [48], [], [List.replicate 251 0]⟩

/-- A frame with subject `A`, offset 10 (hence a 6-byte lead section) and one
2-byte block; used as a concrete witness frame. -/
def frameW : Frame := ⟨4, [65], [49, 48], [10, 20, 30, 40, 50, 60], [[7, 8]]⟩

/-! ## Branch lemmas for the block-scan loop -/

lemma scanBlocks_oob (raw : List Nat) (i : Nat) (acc : List Nat) (h : raw.length ≤ i) :
    scanBlocks raw i acc = .error .indexError := by
  rw [scanBlocks, dif_neg (by omega)]

lemma scanBlocks_stx (raw : List Nat) (i len : Nat) (acc : List Nat)
    (h1 : raw[i]? = some STX) (h2 : raw[i+1]? = some len) :
    scanBlocks raw i acc = scanBlocks raw (i + 2 + len) (acc ++ (raw.drop (i+2)).take len) := by
  obtain ⟨hlt, hv⟩ := List.getElem?_eq_some.mp h1
  rw [scanBlocks, dif_pos hlt]
  simp [hv, h2]

lemma scanBlocks_stx_oob (raw : List Nat) (i : Nat) (acc : List Nat)
    (h1 : raw[i]? = some STX) (h2 : raw[i+1]? = none) :
    scanBlocks raw i acc = .error .indexError := by
  obtain ⟨hlt, hv⟩ := List.getElem?_eq_some.mp h1
  rw [scanBlocks, dif_pos hlt]
  simp [hv, h2]

lemma scanBlocks_eot (raw : List Nat) (i ck : Nat) (acc : List Nat)
    (h1 : raw[i]? = some EOT) (h2 : raw[i+1]? = some ck) :
    scanBlocks raw i acc =
      if (ck : Int) = calculate_checksum acc then .ok (acc, ck, i + 2)
      else .error .checksumMismatch := by
  obtain ⟨hlt, hv⟩ := List.getElem?_eq_some.mp h1
  rw [scanBlocks, dif_pos hlt]
  simp [hv, h2, STX, EOT]

lemma scanBlocks_eot_oob (raw : List Nat) (i : Nat) (acc : List Nat)
    (h1 : raw[i]? = some EOT) (h2 : raw[i+1]? = none) :
    scanBlocks raw i acc = .error .indexError := by
  obtain ⟨hlt, hv⟩ := List.getElem?_eq_some.mp h1
  rw [scanBlocks, dif_pos hlt]
  simp [hv, h2, STX, EOT]

lemma scanBlocks_bad (raw : List Nat) (i b : Nat) (acc : List Nat)
    (h1 : raw[i]? = some b) (hb1 : b ≠ STX) (hb2 : b ≠ EOT) :
    scanBlocks raw i acc = .error .malformedBlock := by
  obtain ⟨hlt, hv⟩ := List.getElem?_eq_some.mp h1
  rw [scanBlocks, dif_pos hlt]
  simp [hv, hb1, hb2]

/-- The checksum formula of the source equals negation mod 256. -/
lemma calculate_checksum_eq_neg_emod (data : List Nat) :
    calculate_checksum data = (-(data.sum : Int)) % 256 := by
  simp only [calculate_checksum]
  omega

/-! ## C3 — checksum validation -/

/-- C3: for every byte buffer accepted by the B2 frame parser, the checksum
byte following EOT equals `(-sum(compressed)) & 0xFF` over the reassembled
compressed bytes, and the scan fails with a checksum error exactly when the
transmitted byte differs; and the code's formula
`((sum(compressed) & 0xFF) * -1) & 0xFF` equals `(-sum(compressed)) & 0xFF`
for every byte sequence. -/
theorem claim_C3 :
    (∀ data : List Nat, calculate_checksum data = (-(data.sum : Int)) % 256) ∧
    (∀ raw i acc ck, raw[i]? = some EOT → raw[i+1]? = some ck →
      ((scanBlocks raw i acc = .ok (acc, ck, i + 2) ↔
          (ck : Int) = (-(acc.sum : Int)) % 256) ∧
       (scanBlocks raw i acc = .error .checksumMismatch ↔
          (ck : Int) ≠ (-(acc.sum : Int)) % 256))) := by
  refine ⟨calculate_checksum_eq_neg_emod, fun raw i acc ck h1 h2 => ?_⟩
  rw [scanBlocks_eot raw i ck acc h1 h2, calculate_checksum_eq_neg_emod]
  by_cases hck : (ck : Int) = (-(acc.sum : Int)) % 256 <;> simp [hck]

/-- Witness for C3 at the concrete terminated frame tail `[EOT, 0xFC]` with
reassembled bytes `[4]` (sum 4, checksum 252). -/
theorem claim_C3_witness :
    scanBlocks [4, 252] 0 [4] = .ok ([4], 252, 0 + 2) :=
  (claim_C3.2 [4, 252] 0 [4] 252 (by decide) (by decide)).1.mpr (by decide)

/-! ## C4 — size cross-validation after a successful block scan -/

/-- C4: whenever the header parses and the block scan completes with a
matching checksum, `parse` fails with `SizeMismatch` unless both the
reassembled compressed data has exactly `compressed_size` bytes and the
little-endian u32 read from compressed bytes `[2..6)` equals
`decompressed_size`; in the failing cases the result is an error, so no
message is decompressed or persisted. -/
theorem claim_C4 (raw : List Nat) (cs ds : Nat) (hdr : HeaderParse)
    (compressed : List Nat) (ck ni : Nat)
    (h1 : parseHeader raw = .ok hdr)
    (h2 : scanBlocks raw hdr.startIdx hdr.leadBytes = .ok (compressed, ck, ni)) :
    parse raw cs ds =
      if compressed.length ≠ cs then .error .sizeMismatchCompressed
      else if leBytesToNat ((compressed.drop 2).take 4) ≠ ds then
        .error .sizeMismatchDecompressed
      else .ok ⟨hdr.subject, hdr.offset, compressed, ck, ni⟩ := by
  simp only [parse, h1, h2]

/-- Witness for C4: the minimal frame `01 03 00 "0" 00 04 00` (empty subject,
offset 0, no blocks) against a proposal with `compressed_size = 99`: the scan
succeeds with 0 compressed bytes and `parse` reports the size mismatch. -/
theorem claim_C4_witness :
    parse [1, 3, 0, 48, 0, 4, 0] 99 0 = .error .sizeMismatchCompressed := by
  have h2 : scanBlocks [1, 3, 0, 48, 0, 4, 0] 5 [] = .ok ([], 0, 7) := by
    rw [scanBlocks_eot [1, 3, 0, 48, 0, 4, 0] 5 0 [] (by decide) (by decide)]
    decide
  have h := claim_C4 [1, 3, 0, 48, 0, 4, 0] 99 0 ⟨[], 0, [], 5⟩ [] 0 7 (by decide) h2
  simpa using h

/-! ## C10 — `_wait_for_data` overshoot and partial returns -/

lemma wait_for_data_go_bound (expected : Nat) (events : List RecvEvent) (acc : List Nat)
    (hc : ∀ c, RecvEvent.chunk c ∈ events → c.length ≤ 4096)
    (ha : acc.length ≤ expected + 4095) :
    (wait_for_data_go expected events acc).length ≤ expected + 4095 := by
  induction events generalizing acc with
  | nil => simpa [wait_for_data_go]
  | cons e rest ih =>
    cases e with
    | timeout => simpa [wait_for_data_go]
    | chunk d =>
      cases d with
      | nil => simpa [wait_for_data_go]
      | cons c cs =>
        rw [wait_for_data_go]
        by_cases hlt : acc.length < expected
        · rw [if_pos hlt]
          refine ih (acc ++ c :: cs) (fun x hx => hc x (List.mem_cons_of_mem _ hx)) ?_
          have hlen : (c :: cs).length ≤ 4096 := hc _ (List.mem_cons_self _ _)
          simp only [List.length_append]
          omega
        · rw [if_neg hlt]; exact ha

/-- C10: `_wait_for_data(expected_size)` may return more bytes than requested
— it issues `recv(4096)` whenever the accumulated length is below
`expected_size`, so the returned buffer never exceeds `expected_size + 4095`
bytes but can reach that bound — and on idle timeout or peer close it returns
the partial (possibly short) buffer instead of raising an error. -/
theorem claim_C10 :
    (∀ expected events, (∀ c, RecvEvent.chunk c ∈ events → c.length ≤ 4096) →
        (wait_for_data expected events).length ≤ expected + 4095) ∧
    (wait_for_data 1 [RecvEvent.chunk (List.replicate 4096 7)]).length = 1 + 4095 ∧
    wait_for_data 3 [RecvEvent.chunk [1, 2, 3, 4, 5, 6, 7]] = [1, 2, 3, 4, 5, 6, 7] ∧
    wait_for_data 100 [RecvEvent.timeout] = [] ∧
    wait_for_data 100 [RecvEvent.chunk [9], RecvEvent.chunk []] = [9] := by
  refine ⟨fun expected events hc => wait_for_data_go_bound expected events [] hc (by simp),
    ?_, by decide, by decide, by decide⟩
  have hrep : List.replicate 4096 (7 : Nat) = 7 :: List.replicate 4095 7 := rfl
  have step : ∀ (c : Nat) (cs : List Nat),
      wait_for_data_go 1 [RecvEvent.chunk (c :: cs)] [] = c :: cs := by
    intro c cs
    simp [wait_for_data_go]
  rw [wait_for_data, hrep, step]
  rw [List.length_cons, List.length_replicate]

/-- Witness for C10's bound at a concrete request: 3 bytes requested, one
7-byte chunk arrives, at most `3 + 4095` come back. -/
theorem claim_C10_witness :
    (wait_for_data 3 [RecvEvent.chunk [1, 2, 3, 4, 5, 6, 7]]).length ≤ 3 + 4095 :=
  claim_C10.1 3 [RecvEvent.chunk [1, 2, 3, 4, 5, 6, 7]]
    (by intro c hc; simp at hc; subst hc; decide)

/-! ## C2 — password validation -/

/-- C2 counterexample: presenting the wrong password `wrongpw` (against any
user directory — the handler consults none; it has no credential-store input
at all) reaches `LOGIN_SUCCESS`; the only line sent is the `Password :`
prompt, so no `;NAK\r` is emitted and the session is not closed. -/
theorem claim_C2_counterexample :
    handle_password_validation (some "wrongpw".toList) =
      (["Password :\r".toList], ConnState.LOGIN_SUCCESS, some "wrongpw".toList) ∧
    ConnState.LOGIN_SUCCESS ≠ ConnState.CLOSE_CONNECTION ∧
    ";NAK\r".toList ∉ ["Password :\r".toList] := by decide

/-- C2 amended: after the `Password :` prompt no credential check happens —
the handler consults no user directory; every non-empty password line moves
the session to `LOGIN_SUCCESS` with the password stored, and a timeout or
empty line returns it to `START`; no `;NAK` is ever sent and the sent lines
are exactly the prompt. -/
theorem claim_C2_amended (pw : List Char) (hpw : pw ≠ []) :
    handle_password_validation (some pw) =
      (["Password :\r".toList], ConnState.LOGIN_SUCCESS, some pw) ∧
    handle_password_validation (some []) =
      (["Password :\r".toList], ConnState.START, none) ∧
    handle_password_validation none =
      (["Password :\r".toList], ConnState.START, none) := by
  refine ⟨?_, by decide, by decide⟩
  simp [handle_password_validation, hpw]

/-- Witness for C2 amended at the concrete password `wrongpw`. -/
theorem claim_C2_witness :
    handle_password_validation (some "wrongpw".toList) =
      (["Password :\r".toList], ConnState.LOGIN_SUCCESS, some "wrongpw".toList) :=
  (claim_C2_amended "wrongpw".toList (by decide)).1

/-! ## C7 — `FF` from the client -/

/-- C7 counterexample: dispatching a client `FF` line sends `FQ\r` but leaves
`next_state` at `CLIENT_REQUEST` — the session does not transition to the
closing state. -/
theorem claim_C7_counterexample :
    handle_client_request (some "FF".toList) [] ⟨ConnState.CLIENT_REQUEST, []⟩ =
      .ok (["FQ\r".toList], ⟨ConnState.CLIENT_REQUEST, []⟩) ∧
    ConnState.CLIENT_REQUEST ≠ ConnState.CLOSE_CONNECTION := by decide

/-- C7 amended: on any client line starting with `FF` the server replies
`FQ\r` and keeps the session unchanged (in particular it stays in its current
`next_state` and writes no mailbox artifact); the session reaches
`CLOSE_CONNECTION` only when a later read yields nothing (timeout or empty
line). -/
theorem claim_C7_amended (rest : List Char) (events : List RecvEvent) (s : Session) :
    handle_client_request (some ('F' :: 'F' :: rest)) events s =
      .ok (["FQ\r".toList], s) ∧
    handle_client_request none events s =
      .ok ([], { s with next_state := ConnState.CLOSE_CONNECTION }) := by
  constructor
  · rw [handle_client_request]
    simp [lineStarts, isBracketed, handle_no_messages]
  · rw [handle_client_request]

/-- Witness for C7 amended at the concrete line `FF` in a logged-in session. -/
theorem claim_C7_witness :
    handle_client_request (some ('F' :: 'F' :: [])) [] ⟨ConnState.CLIENT_REQUEST, []⟩ =
      .ok (["FQ\r".toList], ⟨ConnState.CLIENT_REQUEST, []⟩) :=
  (claim_C7_amended [] [] ⟨ConnState.CLIENT_REQUEST, []⟩).1

/-! ## C1 — `F>` with a non-empty proposal queue -/

/-- C1: dispatching `F>` with two queued proposals sends exactly `FS Y\r` —
one `Y` for the first proposal only, not one per queued proposal — and then
aborts: the call `message.record_messsage_data(data)` names a method that
`WinlinkMailMessage` does not define, so the first loop iteration raises
`AttributeError` after the read; the handler's `except` block swallows it.
No proposal is persisted, no `FF\r` is sent, the second proposal stays queued,
and `next_state` remains `CLIENT_REQUEST` instead of a return to a command
state after a completed batch. -/
theorem claim_C1_code_divergence :
    handle_client_request (some "F>".toList) [RecvEvent.chunk [1, 2, 3]]
        ⟨ConnState.CLIENT_REQUEST,
         [⟨"EM".toList, "MIDAAA".toList, 100, 60⟩,
          ⟨"EM".toList, "MIDBBB".toList, 90, 50⟩]⟩ =
      .ok (["FS Y\r".toList],
        ⟨ConnState.CLIENT_REQUEST, [⟨"EM".toList, "MIDBBB".toList, 90, 50⟩]⟩) ∧
    "FS YY\r".toList ∉ ["FS Y\r".toList] ∧
    "FF\r".toList ∉ ["FS Y\r".toList] := by decide

/-! ## C8 — mailbox artifact writes -/

lemma fsRead_fsWrite_self (fs : FileSystem) (path content : String) :
    fsRead (fsWrite fs path content) path = some content := by
  induction fs with
  | nil => simp [fsWrite, fsRead]
  | cons e rest ih =>
    obtain ⟨p, c⟩ := e
    by_cases hp : p = path
    · simp [fsWrite, fsRead, hp]
    · simp [fsWrite, fsRead, hp, ih]

lemma fsRead_fsWrite_other (fs : FileSystem) (path content q : String) (h : q ≠ path) :
    fsRead (fsWrite fs path content) q = fsRead fs q := by
  induction fs with
  | nil => simp [fsWrite, fsRead, Ne.symm h]
  | cons e rest ih =>
    obtain ⟨p, c⟩ := e
    by_cases hp : p = path
    · subst hp
      simp [fsWrite, fsRead, Ne.symm h]
    · by_cases hq : p = q <;> simp [fsWrite, fsRead, hp, hq, ih, h]

lemma fsRead_save_attachments_other (fs : FileSystem) (filename : String)
    (attachments : List (String × String)) (q : String)
    (h : ∀ a ∈ attachments, q ≠ filename ++ "-" ++ a.1) :
    fsRead (save_attachments_to_files fs filename attachments) q = fsRead fs q := by
  induction attachments generalizing fs with
  | nil => rfl
  | cons a rest ih =>
    simp only [save_attachments_to_files, List.foldl_cons] at *
    rw [ih (fsWrite fs (filename ++ "-" ++ a.1) a.2) (fun b hb => h b (List.mem_cons_of_mem _ hb))]
    exact fsRead_fsWrite_other fs (filename ++ "-" ++ a.1) a.2 q (h a (List.mem_cons_self _ _))

/-- C8 counterexample: with `mailbox/20250101120000-ABC123-headers.txt`
already present holding `old headers`, saving new headers for the same prefix
leaves a filesystem whose only entry is that same path with the new content:
the prior contents are destroyed and no `-1`-suffixed (or any other) name is
created. -/
theorem claim_C8_counterexample :
    save_headers_to_file [("mailbox/20250101120000-ABC123-headers.txt", "old headers")]
        "mailbox/20250101120000-ABC123" "new headers" =
      [("mailbox/20250101120000-ABC123-headers.txt", "new headers")] := by decide

/-- C8 amended: every mailbox artifact write (headers, body, attachment) goes
to its fixed deterministic name; an existing file at that exact name is
silently overwritten with the new content, and no other name — in particular
no `-1`, `-2`, … suffixed variant — is ever created or modified. -/
theorem claim_C8_amended (fs : FileSystem) (filename headers body q : String) :
    (fsRead (save_headers_to_file fs filename headers) (filename ++ "-headers.txt") =
      some headers) ∧
    (q ≠ filename ++ "-headers.txt" →
      fsRead (save_headers_to_file fs filename headers) q = fsRead fs q) ∧
    (fsRead (save_body_to_file fs filename body) (filename ++ "-body.txt") = some body) ∧
    (q ≠ filename ++ "-body.txt" →
      fsRead (save_body_to_file fs filename body) q = fsRead fs q) ∧
    (∀ attachments, (∀ a ∈ attachments, q ≠ filename ++ "-" ++ a.1) →
      fsRead (save_attachments_to_files fs filename attachments) q = fsRead fs q) :=
  ⟨fsRead_fsWrite_self fs (filename ++ "-headers.txt") headers,
   fun h => fsRead_fsWrite_other fs (filename ++ "-headers.txt") headers q h,
   fsRead_fsWrite_self fs (filename ++ "-body.txt") body,
   fun h => fsRead_fsWrite_other fs (filename ++ "-body.txt") body q h,
   fun attachments h => fsRead_save_attachments_other fs filename attachments q h⟩

/-- Witness for C8 amended: overwriting headers at a concrete occupied name
while an unrelated file stays untouched. -/
theorem claim_C8_witness :
    fsRead (save_headers_to_file
        [("mailbox/20250101120000-ABC123-headers.txt", "old headers")]
        "mailbox/20250101120000-ABC123" "new headers")
      ("mailbox/20250101120000-ABC123" ++ "-headers.txt") = some "new headers" ∧
    fsRead (save_headers_to_file
        [("mailbox/20250101120000-ABC123-headers.txt", "old headers")]
        "mailbox/20250101120000-ABC123" "new headers") "unrelated.txt" =
      fsRead [("mailbox/20250101120000-ABC123-headers.txt", "old headers")] "unrelated.txt" :=
  ⟨(claim_C8_amended [("mailbox/20250101120000-ABC123-headers.txt", "old headers")]
      "mailbox/20250101120000-ABC123" "new headers" "ignored" "unrelated.txt").1,
   (claim_C8_amended [("mailbox/20250101120000-ABC123-headers.txt", "old headers")]
      "mailbox/20250101120000-ABC123" "new headers" "ignored" "unrelated.txt").2.1
     (by decide)⟩

lemma findFrom_of_not_mem (l : List Nat) (t i : Nat) (h : t ∉ l) : findFrom l t i = none := by
  induction l generalizing i with
  | nil => rfl
  | cons b rest ih =>
    have hb : ¬ b = t := fun he => h (he ▸ List.mem_cons_self b rest)
    rw [findFrom, if_neg hb]
    exact ih (i+1) (fun hm => h (List.mem_cons_of_mem _ hm))

lemma findFrom_append (a b : List Nat) (t i : Nat) (h : t ∉ a) :
    findFrom (a ++ t :: b) t i = some (i + a.length) := by
  induction a generalizing i with
  | nil => simp [findFrom]
  | cons x rest ih =>
    have hx : ¬ x = t := fun he => h (he ▸ List.mem_cons_self x rest)
    rw [List.cons_append, findFrom, if_neg hx]
    rw [ih (i+1) (fun hm => h (List.mem_cons_of_mem _ hm))]
    congr 1
    simp
    omega

lemma getElem?_append_self (pre l : List Nat) (k : Nat) : (pre ++ l)[pre.length + k]? = l[k]? := by
  rw [List.getElem?_append_right (by omega)]
  congr 1
  omega

lemma parseHeader_structured (lb : Nat) (subj digs tail : List Nat)
    (hsub : ∀ b ∈ subj, 0 < b ∧ b < 128)
    (hdig : ∀ b ∈ digs, isDigitByte b)
    (hne : digs ≠ []) :
    parseHeader (SOH :: lb :: (subj ++ NUL :: (digs ++ NUL :: tail))) =
      (if digitsToNat digs = 0 then
        .ok ⟨subj, 0, [], subj.length + digs.length + 4⟩
      else
        match tail[0]? with
        | none => .error .indexError
        | some s =>
          if s ≠ STX then .error .expectedLeadBytes
          else match tail[1]? with
            | none => .error .indexError
            | some six =>
              if six ≠ 0x06 then .error .expectedLeadBytes
              else .ok ⟨subj, digitsToNat digs, (tail.drop 2).take 6,
                        subj.length + digs.length + 12⟩) := by
  have hsubnul : NUL ∉ subj := fun hm => by have := (hsub _ hm).1; simp [NUL] at this
  have hdignul : NUL ∉ digs := fun hm => by
    have := hdig _ hm; simp [isDigitByte, NUL] at this
  have h00 : (SOH :: lb :: (subj ++ NUL :: (digs ++ NUL :: tail)))[0]? = some SOH := rfl
  have h01 : (SOH :: lb :: (subj ++ NUL :: (digs ++ NUL :: tail)))[1]? = some lb := by simp
  have hfind1 : indexOfFrom (SOH :: lb :: (subj ++ NUL :: (digs ++ NUL :: tail))) NUL 2 =
      some (2 + subj.length) := by
    rw [indexOfFrom]
    simp only [List.drop_succ_cons, List.drop_zero]
    exact findFrom_append subj (digs ++ NUL :: tail) NUL 2 hsubnul
  have hget : (SOH :: lb :: (subj ++ NUL :: (digs ++ NUL :: tail)))[2 + subj.length]? =
      some NUL := by
    rw [show (2 : Nat) + subj.length = (subj.length + 1) + 1 from by omega]
    rw [List.getElem?_cons_succ, List.getElem?_cons_succ]
    have h0 := getElem?_append_self subj (NUL :: (digs ++ NUL :: tail)) 0
    simpa using h0
  have hfind2 : indexOfFrom (SOH :: lb :: (subj ++ NUL :: (digs ++ NUL :: tail))) NUL
      (2 + subj.length + 1) = some (2 + subj.length + 1 + digs.length) := by
    rw [indexOfFrom]
    rw [show (2 : Nat) + subj.length + 1 = (subj.length + 1) + 1 + 1 from by omega]
    rw [List.drop_succ_cons, List.drop_succ_cons]
    rw [List.drop_append_eq_append_drop]
    rw [List.drop_of_length_le (by omega), List.nil_append]
    rw [show subj.length + 1 - subj.length = 1 from by omega]
    rw [List.drop_succ_cons, List.drop_zero]
    rw [findFrom_append digs tail NUL ((subj.length + 1) + 1 + 1) hdignul]
  have hall1 : subj.all (fun x => decide (x < 128)) = true :=
    List.all_eq_true.mpr fun b hb => decide_eq_true (hsub b hb).2
  have hall2 : digs.all (fun x => decide (x < 128)) = true :=
    List.all_eq_true.mpr fun b hb => by
      have := hdig b hb
      simp [isDigitByte] at this
      exact decide_eq_true (by omega)
  have hall3 : digs.all isDigitByte = true := List.all_eq_true.mpr hdig
  have hsl1 : (2 : Nat) + subj.length - 2 = subj.length := by omega
  have hdrop2 : (SOH :: lb :: (subj ++ NUL :: (digs ++ NUL :: tail))).drop 2 =
      subj ++ NUL :: (digs ++ NUL :: tail) := rfl
  have hdropS : (SOH :: lb :: (subj ++ NUL :: (digs ++ NUL :: tail))).drop
      (2 + subj.length + 1) = digs ++ NUL :: tail := by
    rw [show (2 : Nat) + subj.length + 1 = (subj.length + 1) + 1 + 1 from by omega]
    rw [List.drop_succ_cons, List.drop_succ_cons]
    rw [List.drop_append_eq_append_drop]
    rw [List.drop_of_length_le (by omega), List.nil_append]
    rw [show subj.length + 1 - subj.length = 1 from by omega]
    rw [List.drop_succ_cons, List.drop_zero]
  have hsl2 : 2 + subj.length + 1 + digs.length - (2 + subj.length + 1) = digs.length := by
    omega
  have hb0 : (SOH :: lb :: (subj ++ NUL :: (digs ++ NUL :: tail)))[2 + subj.length + 1 +
      digs.length + 1]? = tail[0]? := by
    rw [show 2 + subj.length + 1 + digs.length + 1 =
        ((subj.length + (digs.length + 2)) + 1) + 1 from by omega]
    rw [List.getElem?_cons_succ, List.getElem?_cons_succ]
    rw [getElem?_append_self subj (NUL :: (digs ++ NUL :: tail)) (digs.length + 2)]
    rw [show digs.length + 2 = (digs.length + 1) + 1 from by omega]
    rw [List.getElem?_cons_succ]
    rw [getElem?_append_self digs (NUL :: tail) 1]
    simp
  have hb1 : (SOH :: lb :: (subj ++ NUL :: (digs ++ NUL :: tail)))[2 + subj.length + 1 +
      digs.length + 1 + 1]? = tail[1]? := by
    rw [show 2 + subj.length + 1 + digs.length + 1 + 1 =
        ((subj.length + (digs.length + 3)) + 1) + 1 from by omega]
    rw [List.getElem?_cons_succ, List.getElem?_cons_succ]
    rw [getElem?_append_self subj (NUL :: (digs ++ NUL :: tail)) (digs.length + 3)]
    rw [show digs.length + 3 = (digs.length + 2) + 1 from by omega]
    rw [List.getElem?_cons_succ]
    rw [getElem?_append_self digs (NUL :: tail) 2]
    simp
  have hbdrop : (SOH :: lb :: (subj ++ NUL :: (digs ++ NUL :: tail))).drop
      (2 + subj.length + 1 + digs.length + 1 + 2) = tail.drop 2 := by
    rw [show 2 + subj.length + 1 + digs.length + 1 + 2 =
        ((subj.length + digs.length + 4) + 1) + 1 from by omega]
    rw [List.drop_succ_cons, List.drop_succ_cons]
    rw [List.drop_append_eq_append_drop]
    rw [List.drop_of_length_le (by omega), List.nil_append]
    rw [show subj.length + digs.length + 4 - subj.length = (digs.length + 3) + 1 from
      by omega]
    rw [List.drop_succ_cons]
    rw [List.drop_append_eq_append_drop]
    rw [List.drop_of_length_le (by omega), List.nil_append]
    rw [show digs.length + 3 - digs.length = 2 + 1 from by omega]
    rw [List.drop_succ_cons]
  rw [parseHeader]
  simp only [h00, h01]
  rw [if_neg (by simp [SOH])]
  rw [hfind1]
  simp only [hdrop2, hsl1, List.take_left, hall1, hget, hfind2, hdropS, hsl2, hall2,
    hall3, hne, hb0, hb1, hbdrop, Bool.not_true, Bool.false_eq_true, if_false, ite_false,
    ne_eq, not_true_eq_false, not_false_eq_true, ite_true, if_true]
  by_cases hz : digitsToNat digs = 0
  · rw [if_neg (by simp [hz]), if_pos hz]
    rw [show 2 + subj.length + 1 + digs.length + 1 = subj.length + digs.length + 4 from
      by omega]
    rw [hz]
  · rw [if_pos hz, if_neg hz]
    cases h0 : tail[0]? with
    | none => rfl
    | some s =>
      by_cases hs : s = STX
      · subst hs
        cases h1 : tail[1]? with
        | none => simp
        | some six =>
          by_cases h6 : six = 0x06
          · subst h6
            simp only [ne_eq, not_true_eq_false, ite_false, if_false,
              Except.ok.injEq, HeaderParse.mk.injEq, true_and, and_true]
            omega
          · simp [h6]
      · simp [hs]

lemma parseHeader_nil : parseHeader [] = .error .indexError := by decide

lemma parseHeader_soh_only : parseHeader [SOH] = .error .indexError := by decide

lemma parseHeader_no_nul (lb : Nat) (mid : List Nat) (h : NUL ∉ mid) :
    parseHeader (SOH :: lb :: mid) = .error .nulNotFound := by
  have h00 : (SOH :: lb :: mid)[0]? = some SOH := rfl
  have h01 : (SOH :: lb :: mid)[1]? = some lb := by simp
  have hfind : indexOfFrom (SOH :: lb :: mid) NUL 2 = none := by
    rw [indexOfFrom]
    exact findFrom_of_not_mem mid NUL 2 h
  rw [parseHeader]
  simp only [h00, h01, hfind]
  rw [if_neg (by simp [SOH])]

lemma parseHeader_one_nul (lb : Nat) (subj after : List Nat)
    (hsub : ∀ b ∈ subj, 0 < b ∧ b < 128) (hafter : NUL ∉ after) :
    parseHeader (SOH :: lb :: (subj ++ NUL :: after)) = .error .nulNotFound := by
  have hsubnul : NUL ∉ subj := fun hm => by have := (hsub _ hm).1; simp [NUL] at this
  have h00 : (SOH :: lb :: (subj ++ NUL :: after))[0]? = some SOH := rfl
  have h01 : (SOH :: lb :: (subj ++ NUL :: after))[1]? = some lb := by simp
  have hfind1 : indexOfFrom (SOH :: lb :: (subj ++ NUL :: after)) NUL 2 =
      some (2 + subj.length) := by
    rw [indexOfFrom]
    simp only [List.drop_succ_cons, List.drop_zero]
    exact findFrom_append subj after NUL 2 hsubnul
  have hget : (SOH :: lb :: (subj ++ NUL :: after))[2 + subj.length]? = some NUL := by
    rw [show (2 : Nat) + subj.length = (subj.length + 1) + 1 from by omega]
    rw [List.getElem?_cons_succ, List.getElem?_cons_succ]
    have h0 := getElem?_append_self subj (NUL :: after) 0
    simpa using h0
  have hdropS : (SOH :: lb :: (subj ++ NUL :: after)).drop (2 + subj.length + 1) =
      after := by
    rw [show (2 : Nat) + subj.length + 1 = (subj.length + 1) + 1 + 1 from by omega]
    rw [List.drop_succ_cons, List.drop_succ_cons]
    rw [List.drop_append_eq_append_drop]
    rw [List.drop_of_length_le (by omega), List.nil_append]
    rw [show subj.length + 1 - subj.length = 1 from by omega]
    rw [List.drop_succ_cons, List.drop_zero]
  have hfind2 : indexOfFrom (SOH :: lb :: (subj ++ NUL :: after)) NUL
      (2 + subj.length + 1) = none := by
    rw [indexOfFrom, hdropS]
    exact findFrom_of_not_mem after NUL (2 + subj.length + 1) hafter
  have hall1 : subj.all (fun x => decide (x < 128)) = true :=
    List.all_eq_true.mpr fun b hb => decide_eq_true (hsub b hb).2
  have hsl1 : (2 : Nat) + subj.length - 2 = subj.length := by omega
  have hdrop2 : (SOH :: lb :: (subj ++ NUL :: after)).drop 2 = subj ++ NUL :: after := rfl
  rw [parseHeader]
  simp only [h00, h01, hfind1, hget, hfind2, hdrop2, hsl1, List.take_left, hall1,
    Bool.not_true, Bool.false_eq_true, if_false, ite_false, ne_eq, not_true_eq_false,
    not_false_eq_true, ite_true, if_true]

/-! Scan of a full composed block section. -/

lemma blockBytes_cons (b : List Nat) (bs : List (List Nat)) :
    blockBytes (b :: bs) = STX :: b.length :: (b ++ blockBytes bs) := by
  simp [blockBytes]

lemma scanBlocks_blockBytes (bs : List (List Nat)) (pre acc : List Nat) (ck : Nat)
    (rest : List Nat) :
    scanBlocks (pre ++ (blockBytes bs ++ (EOT :: ck :: rest))) pre.length acc =
      if (ck : Int) = calculate_checksum (acc ++ bs.flatten) then
        .ok (acc ++ bs.flatten, ck, pre.length + (blockBytes bs).length + 2)
      else .error .checksumMismatch := by
  induction bs generalizing pre acc with
  | nil =>
    have hb : blockBytes [] = [] := rfl
    rw [hb, List.nil_append]
    have h0 : (pre ++ EOT :: ck :: rest)[pre.length]? = some EOT := by
      have := getElem?_append_self pre (EOT :: ck :: rest) 0
      simpa using this
    have h1 : (pre ++ EOT :: ck :: rest)[pre.length + 1]? = some ck := by
      have := getElem?_append_self pre (EOT :: ck :: rest) 1
      simpa using this
    rw [scanBlocks_eot (pre ++ EOT :: ck :: rest) pre.length ck acc h0 h1]
    simp
  | cons b bs ih =>
    rw [blockBytes_cons]
    have h0 : (pre ++ (STX :: b.length :: (b ++ blockBytes bs) ++ EOT :: ck :: rest))[pre.length]? = some STX := by
      have := getElem?_append_self pre (STX :: b.length :: ((b ++ blockBytes bs) ++ EOT :: ck :: rest)) 0
      simpa using this
    have h1 : (pre ++ (STX :: b.length :: (b ++ blockBytes bs) ++ EOT :: ck :: rest))[pre.length + 1]? = some b.length := by
      have := getElem?_append_self pre (STX :: b.length :: ((b ++ blockBytes bs) ++ EOT :: ck :: rest)) 1
      simpa using this
    rw [scanBlocks_stx _ pre.length b.length acc h0 h1]
    have hshape2 : pre ++ (STX :: b.length :: (b ++ blockBytes bs) ++ EOT :: ck :: rest) =
        (pre ++ [STX, b.length]) ++ ((b ++ blockBytes bs) ++ EOT :: ck :: rest) := by
      simp
    have hlenA : (pre ++ [STX, b.length]).length = pre.length + 2 := by simp
    have hdrop : (pre ++ (STX :: b.length :: (b ++ blockBytes bs) ++ EOT :: ck :: rest)).drop (pre.length + 2) = (b ++ blockBytes bs) ++ EOT :: ck :: rest := by
      rw [hshape2, ← hlenA, List.drop_left]
    have hslice : ((pre ++ (STX :: b.length :: (b ++ blockBytes bs) ++ EOT :: ck :: rest)).drop (pre.length + 2)).take b.length = b := by
      rw [hdrop, List.append_assoc]
      exact List.take_left b (blockBytes bs ++ EOT :: ck :: rest)
    rw [hslice]
    have hshape : pre ++ (STX :: b.length :: (b ++ blockBytes bs) ++ EOT :: ck :: rest) =
        (pre ++ STX :: b.length :: b) ++ (blockBytes bs ++ EOT :: ck :: rest) := by
      simp
    have hlen2 : pre.length + 2 + b.length = (pre ++ STX :: b.length :: b).length := by
      simp
      omega
    rw [hshape, hlen2, ih (pre ++ STX :: b.length :: b) (acc ++ b)]
    have hflat : (acc ++ b) ++ bs.flatten = acc ++ (b :: bs).flatten := by
      rw [List.flatten_cons, List.append_assoc]
    have hidx : (pre ++ STX :: b.length :: b).length + (blockBytes bs).length + 2 =
        pre.length + (blockBytes (b :: bs)).length + 2 := by
      rw [blockBytes_cons]
      simp
      omega
    rw [hflat, hidx]
    have hlast : (STX :: b.length :: (b ++ blockBytes bs)).length = (blockBytes (b :: bs)).length := by
      rw [blockBytes_cons]
    rw [hlast]

lemma blockBytes_nil : blockBytes [] = [] := rfl

lemma length_blockBytes_cons (b : List Nat) (bs : List (List Nat)) :
    (blockBytes (b :: bs)).length = 2 + b.length + (blockBytes bs).length := by
  rw [blockBytes_cons]
  simp
  omega

lemma scanBlocks_truncated (bs : List (List Nat)) (ck : Nat) (pre acc : List Nat)
    (u : Nat) (hu : u < (blockBytes bs).length + 2) :
    scanBlocks (pre ++ (blockBytes bs ++ [EOT, ck]).take u) pre.length acc =
      .error .indexError := by
  induction bs generalizing pre acc u with
  | nil =>
    rcases u with _ | _ | u2
    · rw [List.take_zero, List.append_nil]
      exact scanBlocks_oob _ _ _ (le_refl _)
    · have htake : (blockBytes [] ++ [EOT, ck]).take 1 = [EOT] := rfl
      rw [htake]
      have h0 : (pre ++ [EOT])[pre.length]? = some EOT := by
        have h := getElem?_append_self pre [EOT] 0
        rw [Nat.add_zero] at h
        rw [h]
        rfl
      have h1 : (pre ++ [EOT])[pre.length + 1]? = none := by
        apply List.getElem?_eq_none
        simp
      exact scanBlocks_eot_oob _ _ _ h0 h1
    · simp [blockBytes_nil] at hu
      omega
  | cons b bs ih =>
    have hsec : blockBytes (b :: bs) ++ [EOT, ck] =
        STX :: b.length :: (b ++ (blockBytes bs ++ [EOT, ck])) := by
      rw [blockBytes_cons]
      simp
    rcases u with _ | _ | u2
    · rw [List.take_zero, List.append_nil]
      exact scanBlocks_oob _ _ _ (le_refl _)
    · rw [hsec]
      have htake : (STX :: b.length :: (b ++ (blockBytes bs ++ [EOT, ck]))).take 1 =
          [STX] := rfl
      rw [htake]
      have h0 : (pre ++ [STX])[pre.length]? = some STX := by
        have h := getElem?_append_self pre [STX] 0
        rw [Nat.add_zero] at h
        rw [h]
        rfl
      have h1 : (pre ++ [STX])[pre.length + 1]? = none := by
        apply List.getElem?_eq_none
        simp
      exact scanBlocks_stx_oob _ _ _ h0 h1
    · rw [hsec]
      have htake : (STX :: b.length :: (b ++ (blockBytes bs ++ [EOT, ck]))).take (u2 + 2) =
          STX :: b.length :: ((b ++ (blockBytes bs ++ [EOT, ck])).take u2) := by
        rw [show u2 + 2 = (u2 + 1) + 1 from by omega]
        rw [List.take_succ_cons, List.take_succ_cons]
      rw [htake]
      have h0 : (pre ++ STX :: b.length :: ((b ++ (blockBytes bs ++ [EOT, ck])).take u2))[pre.length]? = some STX := by
        have := getElem?_append_self pre (STX :: b.length :: ((b ++ (blockBytes bs ++ [EOT, ck])).take u2)) 0
        simpa using this
      have h1 : (pre ++ STX :: b.length :: ((b ++ (blockBytes bs ++ [EOT, ck])).take u2))[pre.length + 1]? = some b.length := by
        have := getElem?_append_self pre (STX :: b.length :: ((b ++ (blockBytes bs ++ [EOT, ck])).take u2)) 1
        simpa using this
      rw [scanBlocks_stx _ pre.length b.length acc h0 h1]
      have hshape2 : pre ++ STX :: b.length :: ((b ++ (blockBytes bs ++ [EOT, ck])).take u2) =
          (pre ++ [STX, b.length]) ++ ((b ++ (blockBytes bs ++ [EOT, ck])).take u2) := by
        simp
      have hlenA : (pre ++ [STX, b.length]).length = pre.length + 2 := by simp
      have hdrop : (pre ++ STX :: b.length :: ((b ++ (blockBytes bs ++ [EOT, ck])).take u2)).drop (pre.length + 2) = (b ++ (blockBytes bs ++ [EOT, ck])).take u2 := by
        rw [hshape2, ← hlenA, List.drop_left]
      by_cases hcase : u2 ≤ b.length
      · apply scanBlocks_oob
        simp only [List.length_append, List.length_cons, List.length_take]
        omega
      · have htk : (b ++ (blockBytes bs ++ [EOT, ck])).take u2 =
            b ++ (blockBytes bs ++ [EOT, ck]).take (u2 - b.length) := by
          rw [List.take_append_eq_append_take]
          rw [List.take_of_length_le (by omega)]
        have hslice : ((pre ++ STX :: b.length :: ((b ++ (blockBytes bs ++ [EOT, ck])).take u2)).drop (pre.length + 2)).take b.length = b := by
          rw [hdrop, htk, List.take_append_of_le_length (le_refl _), List.take_length]
        rw [hslice]
        have hshape3 : pre ++ STX :: b.length :: ((b ++ (blockBytes bs ++ [EOT, ck])).take u2) =
            (pre ++ STX :: b.length :: b) ++ (blockBytes bs ++ [EOT, ck]).take (u2 - b.length) := by
          rw [htk]
          simp
        have hlen2 : pre.length + 2 + b.length = (pre ++ STX :: b.length :: b).length := by
          simp
          omega
        rw [hshape3, hlen2]
        apply ih
        rw [length_blockBytes_cons] at hu
        omega

lemma calculate_checksum_nonneg (d : List Nat) : 0 ≤ calculate_checksum d :=
  Int.emod_nonneg _ (by norm_num)

lemma checksumByte_cast (f : Frame) :
    ((checksumByte f : Nat) : Int) = calculate_checksum (frameCompressed f) := by
  rw [checksumByte]
  exact Int.toNat_of_nonneg (calculate_checksum_nonneg _)

lemma parse_compose_aux (f : Frame) (hw : WellFormedFrame f) (rest : List Nat) :
    parse (compose f ++ rest) (frameCompressed f).length
        (leBytesToNat (((frameCompressed f).drop 2).take 4)) =
      .ok ⟨f.subject, frameOffset f, frameCompressed f, checksumByte f,
           (compose f).length⟩ := by
  obtain ⟨hsub, hdig, hne, hlead, hleadb, hblk, hlb⟩ := hw
  by_cases hz : frameOffset f = 0
  · have hcomp : compose f ++ rest =
        SOH :: f.lengthByte :: (f.subject ++ NUL :: (f.offsetDigits ++ NUL ::
          (blockBytes f.blocks ++ (EOT :: checksumByte f :: rest)))) := by
      simp [compose, leadSection, hz]
    have hH : parseHeader (compose f ++ rest) =
        .ok ⟨f.subject, 0, [], f.subject.length + f.offsetDigits.length + 4⟩ := by
      rw [hcomp, parseHeader_structured f.lengthByte f.subject f.offsetDigits
        (blockBytes f.blocks ++ (EOT :: checksumByte f :: rest)) hsub hdig hne]
      rw [if_pos (show digitsToNat f.offsetDigits = 0 from hz)]
    have hshape : compose f ++ rest =
        (SOH :: f.lengthByte :: (f.subject ++ NUL :: (f.offsetDigits ++ [NUL]))) ++
          (blockBytes f.blocks ++ (EOT :: checksumByte f :: rest)) := by
      rw [hcomp]
      simp
    have hprelen : (SOH :: f.lengthByte :: (f.subject ++ NUL ::
        (f.offsetDigits ++ [NUL]))).length =
        f.subject.length + f.offsetDigits.length + 4 := by
      simp
      omega
    have hFC : frameCompressed f = f.blocks.flatten := by
      simp [frameCompressed, hz]
    have hS : scanBlocks (compose f ++ rest)
        (f.subject.length + f.offsetDigits.length + 4) [] =
        .ok (frameCompressed f, checksumByte f,
             f.subject.length + f.offsetDigits.length + 4 +
               (blockBytes f.blocks).length + 2) := by
      rw [hshape, ← hprelen]
      rw [scanBlocks_blockBytes f.blocks _ [] (checksumByte f) rest]
      rw [if_pos (by rw [checksumByte_cast, hFC]; simp)]
      rw [hprelen, hFC]
      simp
    have hlenC : (compose f).length =
        f.subject.length + f.offsetDigits.length + 4 + (blockBytes f.blocks).length + 2 := by
      simp [compose, leadSection, hz]
      omega
    rw [parse, hH]
    simp only [hS]
    rw [if_neg (by simp), if_neg (by simp)]
    rw [hz, hlenC]
  · have hl6 : f.lead.length = 6 := hlead hz
    have hcomp : compose f ++ rest =
        SOH :: f.lengthByte :: (f.subject ++ NUL :: (f.offsetDigits ++ NUL ::
          (STX :: 0x06 :: (f.lead ++ (blockBytes f.blocks ++
            (EOT :: checksumByte f :: rest)))))) := by
      simp [compose, leadSection, hz]
    have hH : parseHeader (compose f ++ rest) =
        .ok ⟨f.subject, frameOffset f, f.lead,
             f.subject.length + f.offsetDigits.length + 12⟩ := by
      rw [hcomp, parseHeader_structured f.lengthByte f.subject f.offsetDigits
        (STX :: 0x06 :: (f.lead ++ (blockBytes f.blocks ++
          (EOT :: checksumByte f :: rest)))) hsub hdig hne]
      rw [if_neg (show ¬ digitsToNat f.offsetDigits = 0 from hz)]
      simp only [List.getElem?_cons_zero, List.getElem?_cons_succ]
      rw [if_neg (by simp [STX]), if_neg (by simp)]
      have hdd : (STX :: 0x06 :: (f.lead ++ (blockBytes f.blocks ++
          (EOT :: checksumByte f :: rest)))).drop 2 =
          f.lead ++ (blockBytes f.blocks ++ (EOT :: checksumByte f :: rest)) := rfl
      rw [hdd, List.take_append_of_le_length (by omega)]
      rw [List.take_of_length_le (by omega)]
      rfl
    have hshape : compose f ++ rest =
        (SOH :: f.lengthByte :: (f.subject ++ NUL :: (f.offsetDigits ++ NUL ::
          (STX :: 0x06 :: f.lead)))) ++
          (blockBytes f.blocks ++ (EOT :: checksumByte f :: rest)) := by
      rw [hcomp]
      simp
    have hprelen : (SOH :: f.lengthByte :: (f.subject ++ NUL :: (f.offsetDigits ++ NUL ::
        (STX :: 0x06 :: f.lead)))).length =
        f.subject.length + f.offsetDigits.length + 12 := by
      simp [hl6]
      omega
    have hFC : frameCompressed f = f.lead ++ f.blocks.flatten := by
      simp [frameCompressed, hz]
    have hS : scanBlocks (compose f ++ rest)
        (f.subject.length + f.offsetDigits.length + 12) f.lead =
        .ok (frameCompressed f, checksumByte f,
             f.subject.length + f.offsetDigits.length + 12 +
               (blockBytes f.blocks).length + 2) := by
      rw [hshape, ← hprelen]
      rw [scanBlocks_blockBytes f.blocks _ f.lead (checksumByte f) rest]
      rw [if_pos (by rw [checksumByte_cast, hFC])]
      rw [hprelen, hFC]
    have hlenC : (compose f).length =
        f.subject.length + f.offsetDigits.length + 12 + (blockBytes f.blocks).length + 2 := by
      simp [compose, leadSection, hz, hl6]
      omega
    rw [parse, hH]
    simp only [hS]
    rw [if_neg (by simp), if_neg (by simp)]
    rw [hlenC]


theorem claim_C5 (f : Frame) (hw : WellFormedFrame f) (rest : List Nat) :
    parse (compose f ++ rest) (frameCompressed f).length
        (leBytesToNat (((frameCompressed f).drop 2).take 4)) =
      .ok ⟨f.subject, frameOffset f, frameCompressed f, checksumByte f,
           (compose f).length⟩ :=
  parse_compose_aux f hw rest

theorem claim_C5_witness :
    parse (compose frameW ++ [9, 9]) (frameCompressed frameW).length
        (leBytesToNat (((frameCompressed frameW).drop 2).take 4)) =
      .ok ⟨[65], 10, frameCompressed frameW, checksumByte frameW,
           (compose frameW).length⟩ := by
  have h := claim_C5 frameW (by decide) [9, 9]
  rw [show frameOffset frameW = 10 from by decide] at h
  exact h

set_option maxRecDepth 4000 in
lemma parse_frame251_ok :
    parse ([1, 3, 0, 48, 0, 2, 251] ++ (List.replicate 251 0 ++ [4, 0])) 251 0 =
      .ok ⟨[], 0, List.replicate 251 0, 0, 260⟩ := by
  have hw : WellFormedFrame frame251 := by
    refine ⟨by simp [frame251], by decide, by decide, fun h => absurd rfl h, by simp [frame251], ?_, by decide⟩
    intro blk hb
    simp [frame251] at hb
    subst hb
    exact ⟨by simp, fun b hb2 => by simp [List.mem_replicate] at hb2; omega⟩
  have e1 : compose frame251 = [1, 3, 0, 48, 0, 2, 251] ++ (List.replicate 251 0 ++ [4, 0]) := by decide
  have e2 : frameCompressed frame251 = List.replicate 251 0 := by decide
  have e3 : frameOffset frame251 = 0 := by decide
  have e4 : checksumByte frame251 = 0 := by decide
  have e5 : (compose frame251).length = 260 := by decide
  have e6 : (frameCompressed frame251).length = 251 := by decide
  have e7 : leBytesToNat (((frameCompressed frame251).drop 2).take 4) = 0 := by decide
  have h := parse_compose_aux frame251 hw []
  rw [List.append_nil, e5, e6, e7, e4, e3, e2, e1] at h
  rw [show (frame251.subject : List Nat) = [] from rfl] at h
  exact h

theorem claim_C6_counterexample :
    parse ([1, 3, 0, 48, 0, 2, 251] ++ (List.replicate 251 0 ++ [4, 0])) 251 0 =
      .ok ⟨[], 0, List.replicate 251 0, 0, 260⟩ :=
  parse_frame251_ok

theorem claim_C6_amended :
    (∀ raw i acc, raw[i]? = some STX → raw[i+1]? = some 0 →
      scanBlocks raw i acc = scanBlocks raw (i + 2) acc) ∧
    parse ([1, 3, 0, 48, 0, 2, 251] ++ (List.replicate 251 0 ++ [4, 0])) 251 0 =
      .ok ⟨[], 0, List.replicate 251 0, 0, 260⟩ := by
  refine ⟨fun raw i acc h1 h2 => ?_, parse_frame251_ok⟩
  rw [scanBlocks_stx raw i 0 acc h1 h2]
  simp

theorem claim_C6_witness :
    scanBlocks [2, 0, 4, 0] 0 [] = scanBlocks [2, 0, 4, 0] (0 + 2) [] :=
  claim_C6_amended.1 [2, 0, 4, 0] 0 [] (by decide) (by decide)

lemma take_cons_of_pos {α : Type} (a : α) (l : List α) (n : Nat) (h : 0 < n) :
    (a :: l).take n = a :: l.take (n - 1) := by
  cases n with
  | zero => omega
  | succ m => simp

lemma parse_take_error (f : Frame) (hw : WellFormedFrame f) (t : Nat)
    (ht : t < (compose f).length) (cs ds : Nat) :
    parse ((compose f).take t) cs ds = .error .indexError ∨
    parse ((compose f).take t) cs ds = .error .nulNotFound := by
  obtain ⟨hsub, hdig, hne, hlead, hleadb, hblk, hlb⟩ := hw
  have hcshape : compose f = SOH :: f.lengthByte :: (f.subject ++ NUL ::
      (f.offsetDigits ++ NUL :: (leadSection f ++ (blockBytes f.blocks ++
        [EOT, checksumByte f])))) := rfl
  rcases t with _ | _ | u
  · left
    rw [List.take_zero]
    rw [parse, parseHeader_nil]
  · left
    rw [hcshape, show (1 : Nat) = 0 + 1 from rfl, List.take_succ_cons, List.take_zero]
    rw [parse, parseHeader_soh_only]
  · have htake2 : (compose f).take (u + 1 + 1) = SOH :: f.lengthByte ::
        ((f.subject ++ NUL :: (f.offsetDigits ++ NUL :: (leadSection f ++
          (blockBytes f.blocks ++ [EOT, checksumByte f])))).take u) := by
      rw [hcshape, List.take_succ_cons, List.take_succ_cons]
    rw [htake2]
    by_cases hu1 : u ≤ f.subject.length
    · -- cut inside the subject: no NUL in the buffer
      right
      have htk : (f.subject ++ NUL :: (f.offsetDigits ++ NUL :: (leadSection f ++
          (blockBytes f.blocks ++ [EOT, checksumByte f])))).take u = f.subject.take u := by
        rw [List.take_append_of_le_length hu1]
      rw [htk]
      rw [parse, parseHeader_no_nul f.lengthByte (f.subject.take u)
        (fun hm => by have := (hsub _ (List.take_subset u f.subject hm)).1; simp [NUL] at this)]
    · by_cases hu2 : u ≤ f.subject.length + 1 + f.offsetDigits.length
      · -- cut inside the offset digits: one NUL then no second NUL
        right
        have htk : (f.subject ++ NUL :: (f.offsetDigits ++ NUL :: (leadSection f ++
            (blockBytes f.blocks ++ [EOT, checksumByte f])))).take u =
            f.subject ++ NUL :: (f.offsetDigits.take (u - f.subject.length - 1)) := by
          rw [List.take_append_eq_append_take]
          rw [List.take_of_length_le (by omega)]
          rw [take_cons_of_pos NUL _ _ (by omega)]
          rw [List.take_append_of_le_length (by omega)]
        rw [htk]
        rw [parse, parseHeader_one_nul f.lengthByte f.subject
          (f.offsetDigits.take (u - f.subject.length - 1)) hsub
          (fun hm => by
            have := hdig _ (List.take_subset _ f.offsetDigits hm)
            simp [isDigitByte, NUL] at this)]
      · -- cut inside the lead/blocks/EOT region
        have htk : (f.subject ++ NUL :: (f.offsetDigits ++ NUL :: (leadSection f ++
            (blockBytes f.blocks ++ [EOT, checksumByte f])))).take u =
            f.subject ++ NUL :: (f.offsetDigits ++ NUL :: ((leadSection f ++
              (blockBytes f.blocks ++ [EOT, checksumByte f])).take
                (u - f.subject.length - 1 - f.offsetDigits.length - 1))) := by
          rw [List.take_append_eq_append_take]
          rw [List.take_of_length_le (by omega)]
          rw [take_cons_of_pos NUL _ _ (by omega)]
          rw [List.take_append_eq_append_take]
          rw [List.take_of_length_le (by omega)]
          rw [take_cons_of_pos NUL _ _ (by omega)]
        rw [htk]
        have hlenC : (compose f).length = f.subject.length + f.offsetDigits.length +
            (leadSection f).length + (blockBytes f.blocks).length + 6 := by
          rw [hcshape]
          simp
          omega
        have hwlt : u - f.subject.length - 1 - f.offsetDigits.length - 1 <
            (leadSection f).length + (blockBytes f.blocks).length + 2 := by
          rw [hlenC] at ht
          omega
        by_cases hz : digitsToNat f.offsetDigits = 0
        · -- offset 0: no lead section; truncated block region gives IndexError
          left
          have hls : leadSection f = [] := by
            simp [leadSection, frameOffset, hz]
          rw [hls, List.nil_append]
          rw [hls] at hwlt
          simp only [List.length_nil, Nat.zero_add] at hwlt
          have hH := parseHeader_structured f.lengthByte f.subject f.offsetDigits
            ((blockBytes f.blocks ++ [EOT, checksumByte f]).take
              (u - f.subject.length - 1 - f.offsetDigits.length - 1)) hsub hdig hne
          rw [if_pos hz] at hH
          have hshape : SOH :: f.lengthByte :: (f.subject ++ NUL :: (f.offsetDigits ++
              NUL :: ((blockBytes f.blocks ++ [EOT, checksumByte f]).take
                (u - f.subject.length - 1 - f.offsetDigits.length - 1)))) =
              (SOH :: f.lengthByte :: (f.subject ++ NUL :: (f.offsetDigits ++ [NUL]))) ++
                ((blockBytes f.blocks ++ [EOT, checksumByte f]).take
                  (u - f.subject.length - 1 - f.offsetDigits.length - 1)) := by
            simp
          have hprelen : (SOH :: f.lengthByte :: (f.subject ++ NUL ::
              (f.offsetDigits ++ [NUL]))).length =
              f.subject.length + f.offsetDigits.length + 4 := by
            simp
            omega
          have hscan : scanBlocks (SOH :: f.lengthByte :: (f.subject ++ NUL ::
              (f.offsetDigits ++ NUL :: ((blockBytes f.blocks ++ [EOT, checksumByte f]).take
                (u - f.subject.length - 1 - f.offsetDigits.length - 1)))))
              (f.subject.length + f.offsetDigits.length + 4) [] = .error .indexError := by
            rw [hshape, ← hprelen]
            exact scanBlocks_truncated f.blocks (checksumByte f) _ [] _ hwlt
          rw [parse, hH]
          simp only [hscan]
        · -- offset non-zero: lead section present
          have hzf : frameOffset f ≠ 0 := hz
          have hl6 : f.lead.length = 6 := hlead hzf
          have hls : leadSection f = STX :: 0x06 :: f.lead := by
            simp [leadSection, frameOffset, hz]
          have htail : leadSection f ++ (blockBytes f.blocks ++ [EOT, checksumByte f]) =
              STX :: 0x06 :: (f.lead ++ (blockBytes f.blocks ++ [EOT, checksumByte f])) := by
            rw [hls]
            simp
          rw [htail]
          rw [hls] at hwlt
          simp only [List.length_cons] at hwlt
          generalize hGw : u - f.subject.length - 1 - f.offsetDigits.length - 1 = w at hwlt ⊢
          rcases w with _ | _ | w2
          · left
            rw [List.take_zero]
            have hH := parseHeader_structured f.lengthByte f.subject f.offsetDigits []
              hsub hdig hne
            rw [if_neg hz] at hH
            simp only [List.getElem?_nil] at hH
            rw [parse, hH]
          · left
            have htk1 : (STX :: 0x06 :: (f.lead ++ (blockBytes f.blocks ++
                [EOT, checksumByte f]))).take 1 = [STX] := rfl
            rw [htk1]
            have hH := parseHeader_structured f.lengthByte f.subject f.offsetDigits [STX]
              hsub hdig hne
            rw [if_neg hz] at hH
            simp only [List.getElem?_cons_zero, List.getElem?_cons_succ, List.getElem?_nil,
              ne_eq, not_true_eq_false, if_false, ite_false] at hH
            rw [parse, hH]
          · have htk2 : (STX :: 0x06 :: (f.lead ++ (blockBytes f.blocks ++
                [EOT, checksumByte f]))).take (w2 + 2) =
                STX :: 0x06 :: ((f.lead ++ (blockBytes f.blocks ++
                  [EOT, checksumByte f])).take w2) := by
              rw [show w2 + 2 = (w2 + 1) + 1 from by omega]
              rw [List.take_succ_cons, List.take_succ_cons]
            rw [htk2]
            have hH := parseHeader_structured f.lengthByte f.subject f.offsetDigits
              (STX :: 0x06 :: ((f.lead ++ (blockBytes f.blocks ++
                [EOT, checksumByte f])).take w2)) hsub hdig hne
            rw [if_neg hz] at hH
            have hdd : (STX :: (0x06 : Nat) :: ((f.lead ++ (blockBytes f.blocks ++
                [EOT, checksumByte f])).take w2)).drop 2 =
                (f.lead ++ (blockBytes f.blocks ++ [EOT, checksumByte f])).take w2 := rfl
            simp only [List.getElem?_cons_zero, List.getElem?_cons_succ, ne_eq,
              not_true_eq_false, if_false, ite_false, hdd] at hH
            by_cases hc : w2 ≤ 6
            · left
              have hlen : (SOH :: f.lengthByte :: (f.subject ++ NUL :: (f.offsetDigits ++
                  NUL :: (STX :: 0x06 :: ((f.lead ++ (blockBytes f.blocks ++
                    [EOT, checksumByte f])).take w2))))).length ≤
                  f.subject.length + f.offsetDigits.length + 12 := by
                simp only [List.length_cons, List.length_append, List.length_take]
                omega
              rw [parse, hH]
              simp only [scanBlocks_oob _ _ _ hlen]
            · left
              have htk3 : (f.lead ++ (blockBytes f.blocks ++ [EOT, checksumByte f])).take
                  w2 = f.lead ++ (blockBytes f.blocks ++ [EOT, checksumByte f]).take
                    (w2 - 6) := by
                rw [List.take_append_eq_append_take]
                rw [List.take_of_length_le (by omega), hl6]
              have hlead6 : ((f.lead ++ (blockBytes f.blocks ++
                  [EOT, checksumByte f])).take w2).take 6 = f.lead := by
                rw [htk3, List.take_append_of_le_length (by omega)]
                exact List.take_of_length_le (by omega)
              rw [hlead6] at hH
              have hshape : SOH :: f.lengthByte :: (f.subject ++ NUL :: (f.offsetDigits ++
                  NUL :: (STX :: 0x06 :: ((f.lead ++ (blockBytes f.blocks ++
                    [EOT, checksumByte f])).take w2)))) =
                  (SOH :: f.lengthByte :: (f.subject ++ NUL :: (f.offsetDigits ++
                    NUL :: (STX :: 0x06 :: f.lead)))) ++
                    ((blockBytes f.blocks ++ [EOT, checksumByte f]).take (w2 - 6)) := by
                rw [htk3]
                simp
              have hprelen : (SOH :: f.lengthByte :: (f.subject ++ NUL :: (f.offsetDigits ++
                  NUL :: (STX :: 0x06 :: f.lead)))).length =
                  f.subject.length + f.offsetDigits.length + 12 := by
                simp [hl6]
                omega
              have hscan : scanBlocks (SOH :: f.lengthByte :: (f.subject ++ NUL ::
                  (f.offsetDigits ++ NUL :: (STX :: 0x06 :: ((f.lead ++
                    (blockBytes f.blocks ++ [EOT, checksumByte f])).take w2)))))
                  (f.subject.length + f.offsetDigits.length + 12) f.lead =
                  .error .indexError := by
                rw [hshape, ← hprelen]
                exact scanBlocks_truncated f.blocks (checksumByte f) _ f.lead (w2 - 6)
                  (by omega)
              rw [parse, hH]
              simp only [hscan]

theorem claim_C9_counterexample :
    (compose ⟨5, [65], [48], [], []⟩).take 2 = [1, 5] ∧
    parse [1, 5] 99 99 = .error .nulNotFound ∧
    ParseError.nulNotFound ≠ ParseError.indexError := ⟨by decide, by decide, by decide⟩

theorem claim_C9_amended (f : Frame) (hw : WellFormedFrame f) (t : Nat)
    (ht : t < (compose f).length) (cs ds : Nat) :
    (parse ((compose f).take t) cs ds = .error .indexError ∨
     parse ((compose f).take t) cs ds = .error .nulNotFound) ∧
    (∀ raw i len acc, raw[i]? = some STX → raw[i+1]? = some len →
      scanBlocks raw i acc =
        scanBlocks raw (i + 2 + len) (acc ++ (raw.drop (i+2)).take len) ∧
      ((raw.drop (i+2)).take len).length = min len (raw.length - (i + 2))) :=
  ⟨parse_take_error f hw t ht cs ds,
   fun raw i len acc h1 h2 =>
    ⟨scanBlocks_stx raw i len acc h1 h2, by simp [List.length_take, List.length_drop]⟩⟩

theorem claim_C9_witness :
    (parse ((compose frameW).take 5) 0 0 = .error .indexError ∨
     parse ((compose frameW).take 5) 0 0 = .error .nulNotFound) ∧
    scanBlocks [2, 250, 9] 0 [] =
      scanBlocks [2, 250, 9] (0 + 2 + 250) ([] ++ (([2, 250, 9].drop (0 + 2)).take 250)) ∧
    (([2, 250, 9].drop (0 + 2)).take 250).length = min 250 ([2, 250, 9].length - (0 + 2)) := by
  have h := claim_C9_amended frameW (by decide) 5 (by decide) 0 0
  exact ⟨h.1, (h.2 [2, 250, 9] 0 250 [] (by decide) (by decide)).1,
         (h.2 [2, 250, 9] 0 250 [] (by decide) (by decide)).2⟩
